import Mathlib

/-!
Shallow embedding of the time-series-cop streaming pipeline
(`src/lib/validation.js` and `src/lib/pipeline.js`) and proofs about the
behaviour its specification describes.

Strings are modelled as Lean `String`, JavaScript objects as association
lists in key-insertion order (JS object iteration order for string keys),
and JavaScript runtime failures (`throw`) as `Except` errors.  Machine
numbers that matter here are integers (epoch milliseconds / nanoseconds),
modelled as `Int`; the JavaScript number `NaN` is modelled explicitly,
either as a dedicated constructor or as `none` in `Option Int`.
-/

namespace TimeSeriesCop

/-! ## JavaScript string primitives used by the source -/

/-- ASCII whitespace recognised by the JS regex class `\s` and by
`String.prototype.trim` (the source data is ASCII; the additional Unicode
space code points JS also trims never occur in the modelled call sites). -/
def isWS (c : Char) : Bool :=
  c = ' ' || c = '\t' || c = '\n' || c = '\r' || c = '\x0b' || c = '\x0c'

/-- Remove the trailing run of whitespace characters, as
`String.prototype.trim` does on the right-hand side. -/
def trimRightChars : List Char → List Char
  | [] => []
  | c :: rest =>
    match trimRightChars rest with
    | [] => if isWS c then [] else [c]
    | r => c :: r

/-- Character-list model of `String.prototype.trim`: drop the leading and
trailing whitespace runs. -/
def trimChars (cs : List Char) : List Char :=
  trimRightChars (cs.dropWhile isWS)

/-- Model of JavaScript `value.trim()`. -/
def jsTrim (s : String) : String :=
  String.mk (trimChars s.data)

/-- Model of JavaScript `value.toUpperCase()` (ASCII case mapping). -/
def jsToUpper (s : String) : String :=
  String.mk (s.data.map Char.toUpper)

/-- Model of JavaScript `value.toLowerCase()` (ASCII case mapping). -/
def jsToLower (s : String) : String :=
  String.mk (s.data.map Char.toLower)

/-! ## The `validator` npm package: `isFloat` and `isInt` -/

/-- Strip one leading `+` or `-` sign, if present. -/
def jsSign : List Char → List Char
  | '+' :: r => r
  | '-' :: r => r
  | cs => cs

/-- Exponent tail of the float regex: `[eE][+-]?[0-9]+` followed by end of
string (the `[eE]` itself has already been consumed by the caller). -/
def floatExpTail (cs : List Char) : Bool :=
  let cs1 := jsSign cs
  cs1 ≠ [] && cs1.all Char.isDigit

/-- Body of validator's float regex after the optional sign:
`([0-9]+)?(\.[0-9]*)?([eE][+-]?[0-9]+)?$`. -/
def floatAfterSign (cs : List Char) : Bool :=
  let cs1 := cs.dropWhile Char.isDigit
  let cs2 := match cs1 with
    | '.' :: r => r.dropWhile Char.isDigit
    | _ => cs1
  match cs2 with
  | [] => true
  | 'e' :: r => floatExpTail r
  | 'E' :: r => floatExpTail r
  | _ => false

/-- Model of `validator.isFloat(str)` with default options: the guard rejecting
`''`, `'.'`, `'-'`, `'+'`, then the float regex
`^[-+]?([0-9]+)?(\.[0-9]*)?([eE][+-]?[0-9]+)?$`. -/
def isFloatStr (s : String) : Bool :=
  if s = "" || s = "." || s = "-" || s = "+" then false
  else floatAfterSign (jsSign s.data)

/-- Model of `validator.isInt(str)` with default options: `^[-+]?[0-9]+$` (the
variant of the regex that forbids leading zeroes differs only on inputs
with leading zeroes, which no claim touches). -/
def isIntStr (s : String) : Bool :=
  let cs := jsSign s.data
  cs ≠ [] && cs.all Char.isDigit

/-! ## `moment.utc(value, moment.ISO_8601, true)` -/

/-- Parse exactly `n` decimal digits, returning their value and the rest. -/
def parseNDigits : Nat → Nat → List Char → Option (Nat × List Char)
  | 0, acc, cs => some (acc, cs)
  | n + 1, acc, c :: cs =>
    if c.isDigit then parseNDigits n (acc * 10 + (c.toNat - 48)) cs else none
  | _ + 1, _, [] => none

/-- Consume one expected character. -/
def expectChar (c : Char) : List Char → Option (List Char)
  | x :: r => if x = c then some r else none
  | [] => none

def isLeapYear (y : Int) : Bool :=
  y % 4 = 0 && (y % 100 ≠ 0 || y % 400 = 0)

def daysInMonth (y m : Int) : Int :=
  if m = 2 then (if isLeapYear y then 29 else 28)
  else if m = 4 || m = 6 || m = 9 || m = 11 then 30
  else 31

/-- Days between 1970-01-01 and the given civil date (proleptic Gregorian
calendar, the standard days-from-civil computation). -/
def daysFromCivil (y m d : Int) : Int :=
  let y1 := if m ≤ 2 then y - 1 else y
  let era := (if 0 ≤ y1 then y1 else y1 - 399) / 400
  let yoe := y1 - era * 400
  let mp := (m + 9) % 12
  let doy := (153 * mp + 2) / 5 + d - 1
  let doe := yoe * 365 + yoe / 4 - yoe / 100 + doy
  era * 146097 + doe - 719468

/-- Time-of-day tail of the ISO-8601 parser: `HH:mm(:ss(.SSS)?)?` with an
optional trailing `Z`, returning milliseconds into the day. -/
def parseISOTime (cs : List Char) : Option Int := do
  let (h, cs) ← parseNDigits 2 0 cs
  let cs ← expectChar ':' cs
  let (mi, cs) ← parseNDigits 2 0 cs
  if h > 23 || mi > 59 then none else
  let (sec, ms, cs) ← (do
    match cs with
    | ':' :: cs1 => do
      let (s, cs2) ← parseNDigits 2 0 cs1
      if s > 59 then none else
      match cs2 with
      | '.' :: cs3 => do
        let (f, cs4) ← parseNDigits 3 0 cs3
        pure (s, f, cs4)
      | _ => pure (s, 0, cs2)
    | _ => pure (0, 0, cs))
  let cs ← (match cs with
    | 'Z' :: r => some r
    | r => some r)
  if cs ≠ [] then none else
  pure ((h : Int) * 3600000 + (mi : Int) * 60000 + (sec : Int) * 1000 + (ms : Int))

/-- Modelled from the strict ISO-8601 parse `moment.utc(value,
moment.ISO_8601, true)` restricted to the calendar-date forms the pipeline
exercises: `YYYY-MM-DD`, optionally followed by `T` and a time of day.
Returns epoch milliseconds (UTC) on success, `none` when the parse is
invalid.  No claim depends on the exact boundary of the accepted ISO
grammar, only on validity/invalidity of concrete inputs. -/
def parseISO8601 (s : String) : Option Int := do
  let cs := s.data
  let (y, cs) ← parseNDigits 4 0 cs
  let cs ← expectChar '-' cs
  let (mo, cs) ← parseNDigits 2 0 cs
  let cs ← expectChar '-' cs
  let (d, cs) ← parseNDigits 2 0 cs
  if mo < 1 || mo > 12 || d < 1 || (d : Int) > daysInMonth (y : Int) (mo : Int) then none else
  let dayMs := daysFromCivil (y : Int) (mo : Int) (d : Int) * 86400000
  match cs with
  | [] => pure dayMs
  | 'T' :: rest => do
    let tod ← parseISOTime rest
    pure (dayMs + tod)
  | _ => none

/-! ## `src/lib/validation.js` -/

/-- A validated value: the original string, a parsed time (epoch ms, the
moment object), or JavaScript `null` for missing data. -/
inductive VVal where
  | null
  | str (s : String)
  | timeVal (ms : Int)
deriving DecidableEq, Repr

/-- The `{ error, value }` object every validator returns. -/
structure VResult where
  error : Option String
  value : VVal
deriving DecidableEq, Repr

def validTypes : List String :=
  ["category", "text", "float", "integer", "boolean", "time"]

/-- Function `isMissing(value)` of validation.js: `value === 'NA' || value === 'NaN'`. -/
def isMissing (value : String) : Bool :=
  value = "NA" || value = "NaN"

namespace strict

/-- Validator `strict.text` from validation.js. -/
def text (value : String) : VResult :=
  if isMissing value then ⟨none, .null⟩
  else if value = "" then ⟨some "Empty text value", .str value⟩
  else ⟨none, .str value⟩

/-- Validator `strict.category` from validation.js. -/
def category (value : String) : VResult :=
  if isMissing value then ⟨none, .null⟩
  else if value = "" then ⟨some "Empty category value", .str value⟩
  else ⟨none, .str value⟩

/-- Validator `strict.float` from validation.js: the `validator.isFloat` test runs
before the missing-sentinel test. -/
def float (value : String) : VResult :=
  if isFloatStr value then ⟨none, .str value⟩
  else if isMissing value then ⟨none, .null⟩
  else if value = "" then ⟨some "Empty float value", .str value⟩
  else ⟨some "Not a float", .str value⟩

/-- Validator `strict.integer` from validation.js. -/
def integer (value : String) : VResult :=
  if isIntStr value then ⟨none, .str value⟩
  else if isMissing value then ⟨none, .null⟩
  else if value = "" then ⟨some "Empty integer value", .str value⟩
  else ⟨some "Not an integer", .str value⟩

/-- Validator `strict.boolean` from validation.js: the input is upper-cased FIRST
(`value = value.toUpperCase()`), and every later test, including the
`isMissing` test, sees the upper-cased value. -/
def boolean (value0 : String) : VResult :=
  let value := jsToUpper value0
  if value = "TRUE" || value = "FALSE" then ⟨none, .str value⟩
  else if isMissing value then ⟨none, .null⟩
  else if value = "" then ⟨some "Empty boolean value", .str value⟩
  else ⟨some "Invalid boolean value", .str value⟩

/-- Validator `strict.time` from validation.js. -/
def time (value : String) : VResult :=
  match parseISO8601 value with
  | none => ⟨some "Invalid ISO8601 timestamp", .str value⟩
  | some ms => ⟨none, .timeVal ms⟩

end strict

/-- A JavaScript runtime failure (an exception other than the library's own
`TimeSeriesCopError`) raised while evaluating a validator body. -/
inductive JsCrash where
  /-- A `ReferenceError`: the body reads an identifier that is not defined. -/
  | referenceErrorVal
  /-- A `TypeError`: the body assigns to a `const` binding. -/
  | typeErrorConstAssign
deriving DecidableEq, Repr

namespace lax

/-- Validator `lax.text` from validation.js. -/
def text (value : String) : Except JsCrash VResult :=
  if value = "" then .ok ⟨none, .null⟩ else .ok ⟨none, .str value⟩

/-- Validator `lax.category` from validation.js. -/
def category (value : String) : Except JsCrash VResult :=
  if value = "" then .ok ⟨none, .null⟩ else .ok ⟨none, .str value⟩

/-- Validator `lax.float` from validation.js. -/
def float (value : String) : Except JsCrash VResult :=
  if isFloatStr value then .ok ⟨none, .str value⟩ else .ok ⟨none, .null⟩

/-- Validator `lax.integer` from validation.js. -/
def integer (value : String) : Except JsCrash VResult :=
  if isIntStr value then .ok ⟨none, .str value⟩ else .ok ⟨none, .null⟩

/-- Validator `lax.boolean` from validation.js.  Its body is
`value = validator.toBoolean(val.toLowerCase()) ? 'TRUE' : 'FALSE'`:
the identifier `val` is not defined anywhere in the module (the parameter
is named `value`), so evaluating `val.toLowerCase()` raises a
`ReferenceError` on every call, before any value is produced. -/
def boolean (_value : String) : Except JsCrash VResult :=
  .error .referenceErrorVal

/-- Validator `lax.time` from validation.js.  Its body binds
`const m = moment.utc(value, moment.ISO_8601, true)` and then, when the
parse is invalid, executes `m = null` — an assignment to a `const`
binding, which raises a `TypeError`. -/
def time (value : String) : Except JsCrash VResult :=
  match parseISO8601 value with
  | some ms => .ok ⟨none, .timeVal ms⟩
  | none => .error .typeErrorConstAssign

end lax

/-- Result object of `validateSchema`. -/
structure SchemaResult where
  error : Option String
  schema : List (String × String)
deriving DecidableEq, Repr

/-- The membership test of the `validateSchema` loop:
`_.includes(validTypes, v.toLowerCase().trim())`. -/
def isValidType (v : String) : Bool :=
  validTypes.contains (jsTrim (jsToLower v))

/-- The scan of `_.values(vschema)` inside `validateSchema`: the first
value (in mapping iteration order) whose lower-cased, trimmed form is not a
recognised type, returned with its original casing and whitespace. -/
def firstInvalidType : List (String × String) → Option String
  | [] => none
  | (_, v) :: rest => if isValidType v then firstInvalidType rest else some v

/-- Function `validateSchema(schema)` from validation.js.  The JS function clones
the input before normalising, so the caller's object is never mutated; in
this pure model that corresponds to returning either the input unchanged
(error branch) or a freshly built normalised mapping (success branch). -/
def validateSchema (schema : List (String × String)) : SchemaResult :=
  match firstInvalidType schema with
  | some v => ⟨some v, schema⟩
  | none => ⟨none, schema.map (fun kv => (kv.1, jsTrim (jsToLower kv.2)))⟩

/-! ## `src/lib/pipeline.js`: line tokenizer -/

/-- Objects `{ text, lineIndex }` produced by `lineStream`. -/
structure Line where
  text : String
  lineIndex : Nat
deriving DecidableEq, Repr

/-- Model of `eol-fix-stream`: normalise `\r\n` and lone `\r` to `\n`. -/
def eolNormalize : List Char → List Char
  | [] => []
  | '\r' :: '\n' :: rest => '\n' :: eolNormalize rest
  | '\r' :: rest => '\n' :: eolNormalize rest
  | c :: rest => c :: eolNormalize rest

/-- Highland `.split()`: split the stream's character content on `\n`.
A trailing terminator therefore always yields a final empty segment.  The
stream content is modelled as the concatenation of its chunks (Highland
buffers partial lines across chunk boundaries). -/
def splitLines : List Char → List (List Char)
  | [] => [[]]
  | '\n' :: rest => [] :: splitLines rest
  | c :: rest =>
    match splitLines rest with
    | [] => [[c]]
    | l :: ls => (c :: l) :: ls

/-- The `.map(line => ({ text: line, lineIndex: i++ }))` stage: every
physical line of the normalised stream, numbered from 0. -/
def indexedLines (content : String) : List Line :=
  ((splitLines (eolNormalize content.data)).map String.mk).enum.map
    (fun p => ⟨p.2, p.1⟩)

/-- Highland `.slice(start, end)`: keep elements with ordinal in
`[start, end)`; `none` models the default `end=Infinity`. -/
def hlSlice (start : Nat) (stop : Option Nat) (l : List Line) : List Line :=
  match stop with
  | none => l.drop start
  | some e => (l.take e).drop start

/-- The window of indexed lines handed to the blank-line policy. -/
def windowLines (content : String) (start : Nat) (stop : Option Nat) : List Line :=
  hlSlice start stop (indexedLines content)

/-- The `dropBlanks` consume loop from pipeline.js, run over a finite
input.  `buf` is the `blankBuffer` closure variable.  A blank line is
buffered; a non-blank line first flushes the buffer (when
`dropInternalBlank` is false) and is then emitted; at end of stream, when
`dropFinalBlank` is false, `blankBuffer.slice(0, length-1)` is emitted —
every buffered blank except the last one. -/
def dropBlanksRun (dib dfb : Bool) (buf : List Line) : List Line → List Line
  | [] => if dfb then [] else buf.dropLast
  | x :: rest =>
    if x.text = "" then dropBlanksRun dib dfb (buf ++ [x]) rest
    else (if dib then [] else buf) ++ x :: dropBlanksRun dib dfb [] rest

/-- Function `lineStream({instream, start, end, dropInternalBlank, dropFinalBlank})`
from pipeline.js, as a function from the stream's character content to the
finite list of emitted lines. -/
def lineStream (content : String) (start : Nat) (stop : Option Nat)
    (dib dfb : Bool) : List Line :=
  dropBlanksRun dib dfb [] (windowLines content start stop)

/-! ## Field tokenizer -/

/-- The `delimiter` option: the sentinel string `'whitespace'` or a
literal delimiter (single character in all call sites). -/
inductive Delim where
  | ws
  | lit (c : Char)
deriving DecidableEq, Repr

theorem dropWhile_length_le (p : α → Bool) (l : List α) :
    (l.dropWhile p).length ≤ l.length := by
  induction l with
  | nil => simp
  | cons a t ih =>
    by_cases h : p a
    · simp only [List.dropWhile_cons, h, if_true, List.length_cons]
      omega
    · simp [List.dropWhile_cons, h]

/-- Split a trimmed line on runs of whitespace (regex `\s+`). -/
def wsSplitRuns (acc : List Char) : List Char → List String
  | [] => [String.mk acc.reverse]
  | c :: rest =>
    if isWS c then String.mk acc.reverse :: wsSplitRuns [] (rest.dropWhile isWS)
    else wsSplitRuns (c :: acc) rest
termination_by cs => cs.length
decreasing_by
  · have := dropWhile_length_le isWS rest
    simp only [List.length_cons]
    omega
  · simp

/-- Function `splitOnWhitespace(line)` from pipeline.js:
`line.trim().split(/\s+/)`.  In JavaScript, splitting the empty string
yields `['']`, so an all-whitespace line gives a single empty field. -/
def splitOnWhitespace (line : String) : List String :=
  let t := trimChars line.data
  if t = [] then [""] else wsSplitRuns [] t

/-- One row of `CSV.parse(text, delimiter)` from the csv-string package:
fields separated by the delimiter, a field may be wrapped in double quotes
within which a doubled quote denotes a literal quote.  The exact quoting
dialect is not load-bearing for any claim (no claim inspects field
contents produced by the CSV branch). -/
def csvRowAux (delim : Char) (inQ : Bool) (acc : List Char) :
    List Char → List String
  | [] => [String.mk acc.reverse]
  | c :: rest =>
    if inQ then
      if c = '"' then
        if rest.head? = some '"' then csvRowAux delim true ('"' :: acc) rest.tail
        else csvRowAux delim false acc rest
      else csvRowAux delim true (c :: acc) rest
    else
      if c = delim then String.mk acc.reverse :: csvRowAux delim false [] rest
      else if c = '"' then csvRowAux delim true acc rest
      else csvRowAux delim false (c :: acc) rest
termination_by cs => cs.length
decreasing_by
  · have := List.length_tail rest
    simp only [List.length_cons]
    omega
  all_goals simp_arith

/-- Field list of one line, as computed inside `fieldStream`: the empty
line yields `[]`; otherwise split on whitespace or parse as a CSV row. -/
def fieldsOfLine (d : Delim) (text : String) : List String :=
  if text = "" then []
  else match d with
    | .ws => splitOnWhitespace text
    | .lit c => csvRowAux c false [] text.data

/-- A record produced by `fieldStream`. -/
structure FieldRec where
  text : String
  lineIndex : Nat
  fields : List String
  recordIndex : Nat
deriving DecidableEq, Repr

/-- Function `fieldStream(...)` from pipeline.js: the line stream, each surviving
line given its field list, and `recordIndex` assigned by the final
`doto(o => o.recordIndex = i++)` counter — one increment per emitted
record. -/
def fieldStream (content : String) (start : Nat) (stop : Option Nat)
    (dib dfb : Bool) (d : Delim) : List FieldRec :=
  ((lineStream content start stop dib dfb).map
      (fun l => (l, fieldsOfLine d l.text))).enum.map
    (fun p => ⟨p.2.1.text, p.2.1.lineIndex, p.2.2, p.1⟩)

/-! ## Document validation (`validateDoc`) -/

/-- Lookup in an association-list object: `schema[k]`, `undefined`
modelled as `none`. -/
def lookupStr (l : List (String × String)) (k : String) : Option String :=
  (l.find? (fun kv => kv.1 = k)).map (fun kv => kv.2)

/-- Lookup `validator[type]` in the strict validator table: the table has
exactly the six type names as keys. -/
def strictValidatorFor : String → Option (String → VResult)
  | "text" => some strict.text
  | "category" => some strict.category
  | "float" => some strict.float
  | "integer" => some strict.integer
  | "boolean" => some strict.boolean
  | "time" => some strict.time
  | _ => none

/-- The `TimeSeriesCopError`s thrown inside the `validateDoc` loop. -/
inductive DocError where
  /-- thrown when `validator[schema[k]]` is `undefined`. -/
  | invalidType (ty : String)
  /-- thrown when a validator reports an error: carries the validator
  message, the line index, the column name, the raw (untrimmed) value and
  the schema type, as interpolated into the JS error string. -/
  | valueError (msg : String) (lineIndex : Nat) (column : String)
      (rawValue : String) (ty : String)
deriving DecidableEq, Repr

/-- The loop body of `validateDoc` (strict mode) over the raw document's
keys, in insertion order.  For each key: keys absent from the schema (or
mapped to a falsy type string) are dropped; a `null` raw value produces no
entry; otherwise the per-type validator is applied to the TRIMMED raw
value (`validator[schema[k]](o.origDoc[k].trim())`), a reported error
aborts the whole document, and the validated value is stored. -/
def validateDocStrict (schema : List (String × String)) (lineIndex : Nat) :
    List (String × Option String) → Except DocError (List (String × VVal))
  | [] => .ok []
  | (k, raw) :: rest =>
    match lookupStr schema k with
    | none => validateDocStrict schema lineIndex rest
    | some ty =>
      if ty = "" then validateDocStrict schema lineIndex rest
      else
        match strictValidatorFor ty with
        | none => .error (.invalidType ty)
        | some f =>
          match raw with
          | none => validateDocStrict schema lineIndex rest
          | some rawv =>
            match (f (jsTrim rawv)).error with
            | some msg => .error (.valueError msg lineIndex k rawv ty)
            | none =>
              (validateDocStrict schema lineIndex rest).map
                (fun d => (k, (f (jsTrim rawv)).value) :: d)

/-- The empty-value error message of the strict validators:
`Empty <type> value`. -/
def emptyValueMsg (ty : String) : String :=
  "Empty " ++ ty ++ " value"

/-- Erase the raw-value diagnostic payload of a `valueError` (the JS error
string interpolates `o.origDoc[k]`, the UNtrimmed original, for
diagnostics).  Used to state that pre-trimming the raw values changes
nothing about validation except that echoed diagnostic text. -/
def scrubRawValue : DocError → DocError
  | .invalidType ty => .invalidType ty
  | .valueError msg li k _ ty => .valueError msg li k "" ty

/-! ## Line-protocol encoder (`writeDocToLineProtocol`, `prepDocForInfluxDB`) -/

/-- A JavaScript value as it occurs in a typed document handed to the
encoder: `null`, `undefined`, the number `NaN`, a finite number, a string,
a boolean, or a moment/Date object (identified by its epoch-millisecond
value, which is all `+time` observes). -/
inductive JsVal where
  | null
  | undefined
  | nan
  | num (n : Int)
  | str (s : String)
  | bool (b : Bool)
  | moment (ms : Int)
deriving DecidableEq, Repr

/-- JavaScript strict equality `===` on the comparisons the encoder
performs (a value against the literals `null`, `NaN`, `undefined`):
`NaN === x` and `x === NaN` are always false. -/
def jsStrictEq (a b : JsVal) : Bool :=
  match a, b with
  | .nan, _ => false
  | _, .nan => false
  | a, b => a = b

/-- The guard `o.doc[k] !== null && o.doc[k] !== NaN && o.doc[k] !==
undefined` of both encoders.  Note that `x !== NaN` is true for EVERY `x`
(including `NaN` itself), so this guard never filters out `NaN`. -/
def jsKeep (v : JsVal) : Bool :=
  !jsStrictEq v .null && !jsStrictEq v .nan && !jsStrictEq v .undefined

/-- JavaScript truthiness, for `if (o.doc[k])` in the `text` case. -/
def jsTruthy : JsVal → Bool
  | .null => false
  | .undefined => false
  | .nan => false
  | .num n => n ≠ 0
  | .str s => s ≠ ""
  | .bool b => b
  | .moment _ => true

/-- JavaScript `ToString`, for the string concatenation `o.doc[k] + 'i'`.
In the pipeline the integer slot always holds a string (validators return
the original string); the other constructors are included for totality. -/
def jsValToString : JsVal → String
  | .null => "null"
  | .undefined => "undefined"
  | .nan => "NaN"
  | .num n => toString n
  | .str s => s
  | .bool b => if b then "true" else "false"
  | .moment ms => toString ms

/-- Model of `Influx.escape.quoted`: wrap in double quotes, escaping embedded
quote characters with a backslash. -/
def influxQuoted (s : String) : String :=
  "\"" ++ String.mk (s.data.foldr
    (fun c acc => if c = '"' then '\\' :: c :: acc else c :: acc) []) ++ "\""

/-- JavaScript unary `+` (number coercion) on the values that reach the
encoder's time slot; `none` is `NaN`.  The typed documents of this
pipeline carry the time as a moment object or epoch milliseconds, never as
a string, so the numeric parsing JS would perform on strings is collapsed
to `NaN` here; no claim depends on that corner. -/
def plusVal : JsVal → Option Int
  | .null => some 0
  | .undefined => none
  | .nan => none
  | .num n => some n
  | .str _ => none
  | .bool b => some (if b then 1 else 0)
  | .moment ms => some ms

/-- JavaScript `>` on numbers: any comparison involving `NaN` is false. -/
def jsGt (a b : Option Int) : Bool :=
  match a, b with
  | some x, some y => x > y
  | _, _ => false

/-- Accumulator of the `Object.keys(o.doc).forEach` loop in
`writeDocToLineProtocol`: the `fields` and `tags` objects and the `time`
variable (documents come from `_.zipObject`, so keys are distinct and
object insertion maps to appending). -/
structure EncAcc where
  fields : List (String × JsVal)
  tags : List (String × JsVal)
  time : Option JsVal
deriving DecidableEq, Repr

/-- One iteration of the `writeDocToLineProtocol` loop: the `!== null /
NaN / undefined` guard, then the `switch (schema[k])`. -/
def lpStep (schema : List (String × String)) (acc : EncAcc)
    (kv : String × JsVal) : EncAcc :=
  let (k, v) := kv
  if jsKeep v then
    match lookupStr schema k with
    | some "text" =>
      if jsTruthy v then
        { acc with fields := acc.fields ++ [(k, .str (influxQuoted (jsValToString v)))] }
      else acc
    | some "category" => { acc with tags := acc.tags ++ [(k, v)] }
    | some "integer" =>
      { acc with fields := acc.fields ++ [(k, .str (jsValToString v ++ "i"))] }
    | some "float" => { acc with fields := acc.fields ++ [(k, v)] }
    | some "boolean" => { acc with fields := acc.fields ++ [(k, v)] }
    | some "time" => { acc with time := some v }
    | _ => acc
  else acc

/-- The full key iteration of `writeDocToLineProtocol` over a document. -/
def lpAccOf (schema : List (String × String)) (doc : List (String × JsVal)) :
    EncAcc :=
  doc.foldl (lpStep schema) ⟨[], [], none⟩

/-- The missing-data patch of `writeDocToLineProtocol`: if no fields are
present, mark missing data with the `influxMissingData` field. -/
def lpFields (schema : List (String × String)) (doc : List (String × JsVal)) :
    List (String × JsVal) :=
  if (lpAccOf schema doc).fields = [] then [("influxMissingData", .bool true)]
  else (lpAccOf schema doc).fields

/-- Errors thrown per document by the encoders. -/
inductive EncError where
  | missingTime (lineIndex : Nat)
  | notSorted (lineIndex : Nat)
deriving DecidableEq, Repr

/-- The record `{ measurement, ts, tags, fields }` passed to the line
protocol serialiser; `ts` is nanoseconds since epoch (`+time * 1000 *
1000`), `none` when the coercion produced `NaN`. -/
structure LPPoint where
  measurement : String
  ts : Option Int
  tags : List (String × JsVal)
  fields : List (String × JsVal)
deriving DecidableEq, Repr

/-- The per-document map of `writeDocToLineProtocol`: build fields/tags/
time, apply the missing-data patch, require a time, apply the
`ensureSorted` monotonicity check against the previous emitted timestamp
(`prev = none` models the initial `prevtime = null`; `some none` a stored
`NaN`), and return the point together with the new `prevtime = +time`. -/
def mkPointLP (measurement : String) (schema : List (String × String))
    (ensureSorted : Bool) (prev : Option (Option Int)) (lineIndex : Nat)
    (doc : List (String × JsVal)) : Except EncError (LPPoint × Option Int) :=
  match (lpAccOf schema doc).time with
  | none => .error (.missingTime lineIndex)
  | some tv =>
    if ensureSorted && (match prev with
        | some p => jsGt p (plusVal tv)
        | none => false) then
      .error (.notSorted lineIndex)
    else
      .ok (⟨measurement, (plusVal tv).map (· * 1000000),
            (lpAccOf schema doc).tags, lpFields schema doc⟩, plusVal tv)

/-- The number the monotonicity check compares: `+time` for the time value
collected from a document by the `writeDocToLineProtocol` loop (outer
`none` = no time key seen; inner `none` = `NaN`). -/
def docTimeNum (schema : List (String × String)) (doc : List (String × JsVal)) :
    Option (Option Int) :=
  ((lpAccOf schema doc).time).map plusVal

/-- Accumulator of the `prepDocForInfluxDB` loop; here `time` is already
coerced (`time = +o.doc[k]` happens inside the switch). -/
structure PrepAcc where
  fields : List (String × JsVal)
  tags : List (String × JsVal)
  time : Option (Option Int)
deriving DecidableEq, Repr

/-- One iteration of the `prepDocForInfluxDB` loop: same guard, then
`category` → tag, `time` → `+o.doc[k]`, `undefined` (key not in schema) →
skip, and EVERY other schema type → field, unencoded. -/
def prepStep (schema : List (String × String)) (acc : PrepAcc)
    (kv : String × JsVal) : PrepAcc :=
  let (k, v) := kv
  if jsKeep v then
    match lookupStr schema k with
    | none => acc
    | some ty =>
      if ty = "category" then { acc with tags := acc.tags ++ [(k, v)] }
      else if ty = "time" then { acc with time := some (plusVal v) }
      else { acc with fields := acc.fields ++ [(k, v)] }
  else acc

def prepAccOf (schema : List (String × String)) (doc : List (String × JsVal)) :
    PrepAcc :=
  doc.foldl (prepStep schema) ⟨[], [], none⟩

/-- The missing-data patch of `prepDocForInfluxDB`. -/
def prepFields (schema : List (String × String)) (doc : List (String × JsVal)) :
    List (String × JsVal) :=
  if (prepAccOf schema doc).fields = [] then [("influxMissingData", .bool true)]
  else (prepAccOf schema doc).fields

/-- The point object `{ measurement, fields, tags, timestamp }` handed to
the InfluxDB driver. -/
structure PrepPoint where
  measurement : String
  fields : List (String × JsVal)
  tags : List (String × JsVal)
  timestamp : Option Int
deriving DecidableEq, Repr

/-- The per-document map of `prepDocForInfluxDB`. -/
def prepPoint (measurement : String) (lineIndex : Nat)
    (schema : List (String × String)) (doc : List (String × JsVal)) :
    Except EncError PrepPoint :=
  match (prepAccOf schema doc).time with
  | none => .error (.missingTime lineIndex)
  | some t =>
    .ok ⟨measurement, prepFields schema doc, (prepAccOf schema doc).tags, t⟩

deriving instance DecidableEq for Except

/-! ## Theorems about the claims -/

/-- Reduction of `mkPointLP` once the document is known to contain a time
value. -/
theorem mkPointLP_some_time (meas : String) (schema : List (String × String))
    (es : Bool) (prev : Option (Option Int)) (li : Nat)
    (doc : List (String × JsVal)) (tv : JsVal)
    (htv : (lpAccOf schema doc).time = some tv) :
    mkPointLP meas schema es prev li doc =
      if es && (match prev with
          | some p => jsGt p (plusVal tv)
          | none => false) then
        .error (.notSorted li)
      else
        .ok (⟨meas, (plusVal tv).map (· * 1000000),
          (lpAccOf schema doc).tags, lpFields schema doc⟩, plusVal tv) := by
  unfold mkPointLP
  rw [htv]

/-- Claim C1: for every typed document handed to the line-protocol encoder
(either `writeDocToLineProtocol` or `prepDocForInfluxDB`), if after
iterating the document/schema keys the resulting field set is empty, a
single boolean field `influxMissingData = true` is inserted, so every
encoded record has a non-empty field set. -/
theorem c1_encoder_never_emits_empty_fields
    (meas : String) (schema : List (String × String)) (doc : List (String × JsVal))
    (es : Bool) (prev : Option (Option Int)) (li : Nat) :
    ((lpAccOf schema doc).fields = [] →
      lpFields schema doc = [("influxMissingData", JsVal.bool true)])
    ∧ ((prepAccOf schema doc).fields = [] →
      prepFields schema doc = [("influxMissingData", JsVal.bool true)])
    ∧ (∀ r, mkPointLP meas schema es prev li doc = .ok r → r.1.fields ≠ [])
    ∧ (∀ q, prepPoint meas li schema doc = .ok q → q.fields ≠ []) := by
  have hlp : lpFields schema doc ≠ [] := by
    unfold lpFields; split
    · simp
    · assumption
  have hpp : prepFields schema doc ≠ [] := by
    unfold prepFields; split
    · simp
    · assumption
  refine ⟨?_, ?_, ?_, ?_⟩
  · intro h; unfold lpFields; simp [h]
  · intro h; unfold prepFields; simp [h]
  · intro r hr
    unfold mkPointLP at hr
    split at hr
    · simp at hr
    · split at hr
      · simp at hr
      · simp only [Except.ok.injEq] at hr
        subst hr
        exact hlp
  · intro q hq
    unfold prepPoint at hq
    split at hq
    · simp at hq
    · simp only [Except.ok.injEq] at hq
      subst hq
      exact hpp

/-- Witness for C1 at a concrete input: a document with only a time value
encodes with the `influxMissingData` field, hence a non-empty field set. -/
theorem c1_witness :
    (({ measurement := "m", ts := some 0, tags := [],
        fields := [("influxMissingData", JsVal.bool true)] } : LPPoint),
      (some 0 : Option Int)).1.fields ≠ [] :=
  (c1_encoder_never_emits_empty_fields "m" [("t", "time")] [("t", .moment 0)]
      true none 0).2.2.1
    (⟨"m", some 0, [], [("influxMissingData", .bool true)]⟩, some 0) (by decide)

/-- Claim C2: when `ensureSorted` is enabled, `writeDocToLineProtocol`
raises the fatal ordering error if and only if the new record's timestamp
is strictly less than the previously emitted one (equal timestamps are
accepted); when `ensureSorted` is disabled, out-of-order timestamps raise
no error. -/
theorem c2_monotonicity_check (meas : String) (schema : List (String × String))
    (doc : List (String × JsVal)) (li : Nat) (t p : Int)
    (h : docTimeNum schema doc = some (some t)) :
    (mkPointLP meas schema true (some (some p)) li doc = .error (.notSorted li)
      ↔ t < p)
    ∧ (¬ t < p →
        ∃ r, mkPointLP meas schema true (some (some p)) li doc = .ok r)
    ∧ (∀ prev, ∃ r, mkPointLP meas schema false prev li doc = .ok r)
    ∧ (∃ r, mkPointLP meas schema true none li doc = .ok r) := by
  obtain ⟨tv, htv, hpv⟩ :
      ∃ tv, (lpAccOf schema doc).time = some tv ∧ plusVal tv = some t := by
    cases hx : (lpAccOf schema doc).time with
    | none => simp [docTimeNum, hx] at h
    | some tv =>
      refine ⟨tv, rfl, ?_⟩
      simpa [docTimeNum, hx] using h
  refine ⟨?_, ?_, ?_, ?_⟩
  · rw [mkPointLP_some_time meas schema true (some (some p)) li doc tv htv]
    simp only [hpv, jsGt, Bool.true_and]
    by_cases hpt : p > t
    · rw [if_pos (by simpa using hpt)]
      exact ⟨fun _ => by omega, fun _ => rfl⟩
    · rw [if_neg (by simpa using hpt)]
      exact ⟨fun hh => by simp at hh, fun hh => absurd hh (by omega)⟩
  · intro hlt
    rw [mkPointLP_some_time meas schema true (some (some p)) li doc tv htv]
    simp only [hpv, jsGt, Bool.true_and]
    exact ⟨_, by rw [if_neg (by simp; omega)]⟩
  · intro prev
    rw [mkPointLP_some_time meas schema false prev li doc tv htv]
    exact ⟨_, by rw [if_neg (by simp)]⟩
  · rw [mkPointLP_some_time meas schema true none li doc tv htv]
    exact ⟨_, by rw [if_neg (by simp)]⟩

/-- Witness for C2 at a concrete input: previous timestamp 9, new
timestamp 5 raises the ordering error. -/
theorem c2_witness :
    mkPointLP "m" [("t", "time")] true (some (some 9)) 0 [("t", .moment 5)]
      = .error (.notSorted 0) :=
  (c2_monotonicity_check "m" [("t", "time")] [("t", .moment 5)] 0 5 9
      (by decide)).1.mpr (by norm_num)

/-- Claim C3 (code bug): validation.js's own header comment says that
`'NA' or 'NaN' for any type means missing data and should be set to
null`, and nine of the ten sentinel/validator combinations do return
`{error: null, value: null}` — but `strict.boolean` upper-cases its input
BEFORE the `isMissing` test, so `"NaN"` becomes `"NAN"`, fails the
sentinel test and is reported as an invalid boolean instead of missing. -/
theorem c3_strict_sentinel_eval :
    strict.text "NA" = ⟨none, .null⟩ ∧ strict.text "NaN" = ⟨none, .null⟩
    ∧ strict.category "NA" = ⟨none, .null⟩
    ∧ strict.category "NaN" = ⟨none, .null⟩
    ∧ strict.float "NA" = ⟨none, .null⟩ ∧ strict.float "NaN" = ⟨none, .null⟩
    ∧ strict.integer "NA" = ⟨none, .null⟩
    ∧ strict.integer "NaN" = ⟨none, .null⟩
    ∧ strict.boolean "NA" = ⟨none, .null⟩
    ∧ strict.boolean "NaN" = ⟨some "Invalid boolean value", .str "NAN"⟩ := by
  decide

/-- Claim C4 (code bug): the four lax validators for text, category,
float and integer do resolve malformed non-missing values to `null`
without failing, but `lax.boolean` reads the undefined identifier `val`
and therefore raises a `ReferenceError` on EVERY input, and `lax.time`
assigns to the `const` binding `m` on every invalid timestamp and raises
a `TypeError` — so lax-mode validation is not failure-free. -/
theorem c4_lax_mode_eval :
    lax.float "abc" = .ok ⟨none, .null⟩
    ∧ lax.integer "1.5" = .ok ⟨none, .null⟩
    ∧ lax.text "" = .ok ⟨none, .null⟩
    ∧ lax.category "" = .ok ⟨none, .null⟩
    ∧ lax.float "6.0" = .ok ⟨none, .str "6.0"⟩
    ∧ (∀ v, lax.boolean v = .error .referenceErrorVal)
    ∧ lax.time "bogus" = .error .typeErrorConstAssign := by
  refine ⟨by decide, by decide, by decide, by decide, by decide,
    fun v => rfl, by decide⟩

/-- Claim C5 (code bug): `null` and `undefined` document values are
omitted by the encoders' guard, but the guard's middle test
`o.doc[k] !== NaN` is true for every value (`NaN === NaN` is false in
JavaScript), so a `NaN` document value is NOT omitted: both encoders
emit it as a field. -/
theorem c5_nan_not_omitted :
    jsKeep JsVal.null = false
    ∧ jsKeep JsVal.undefined = false
    ∧ jsKeep JsVal.nan = true
    ∧ mkPointLP "m" [("x", "float"), ("t", "time")] true none 0
        [("x", JsVal.nan), ("t", JsVal.moment 0)]
      = .ok (⟨"m", some 0, [], [("x", JsVal.nan)]⟩, some 0)
    ∧ prepPoint "m" 0 [("x", "float"), ("t", "time")]
        [("x", JsVal.nan), ("t", JsVal.num 0)]
      = .ok ⟨"m", [("x", JsVal.nan)], [], some 0⟩ := by
  decide

/-- The value scan of `validateSchema` finds nothing exactly when every
schema value is a recognised type (case-insensitively, after trimming). -/
theorem firstInvalidType_eq_none_iff (s : List (String × String)) :
    firstInvalidType s = none ↔ ∀ kv ∈ s, isValidType kv.2 = true := by
  induction s with
  | nil => simp [firstInvalidType]
  | cons a rest ih =>
    obtain ⟨k, v⟩ := a
    by_cases hv : isValidType v = true
    · simp [firstInvalidType, hv, ih]
    · simp only [firstInvalidType]
      rw [if_neg hv]
      constructor
      · intro hh; simp at hh
      · intro hall
        exact absurd (hall (k, v) (by simp)) hv

/-- The value scan of `validateSchema` returns the first invalid value in
mapping iteration order. -/
theorem firstInvalidType_append (pre : List (String × String))
    (kv : String × String) (post : List (String × String))
    (hpre : ∀ kv2 ∈ pre, isValidType kv2.2 = true)
    (hkv : isValidType kv.2 = false) :
    firstInvalidType (pre ++ kv :: post) = some kv.2 := by
  induction pre with
  | nil =>
    obtain ⟨k, v⟩ := kv
    simp only [List.nil_append, firstInvalidType]
    rw [if_neg (by simp [hkv])]
  | cons a rest ih =>
    obtain ⟨k2, v2⟩ := a
    have hv2 : isValidType v2 = true := hpre (k2, v2) (by simp)
    simp only [List.cons_append, firstInvalidType]
    rw [if_pos hv2]
    exact ih (fun kv2 hm => hpre kv2 (by simp [hm]))

/-- Claim C6: `validateSchema` returns, on the first invalid type value in
mapping iteration order, that raw value (original casing and whitespace)
together with the original input unmodified; when every value is valid
case-insensitively after trimming, it returns `error = null` and a new
mapping with every value lowercased and trimmed.  (The JS function works
on a `_.clone` of its argument, so the caller's object is not mutated in
either branch; in this pure model both branches are values built from the
input.) -/
theorem c6_validateSchema_contract (s : List (String × String)) :
    ((validateSchema s).error = none ↔ ∀ kv ∈ s, isValidType kv.2 = true)
    ∧ ((validateSchema s).error = none →
        (validateSchema s).schema
          = s.map (fun kv => (kv.1, jsTrim (jsToLower kv.2))))
    ∧ (∀ pre kv post, s = pre ++ kv :: post →
        (∀ kv2 ∈ pre, isValidType kv2.2 = true) →
        isValidType kv.2 = false →
        validateSchema s = ⟨some kv.2, s⟩) := by
  refine ⟨?_, ?_, ?_⟩
  · cases hf : firstInvalidType s with
    | none =>
      have hvs : validateSchema s = ⟨none, s.map (fun kv => (kv.1, jsTrim (jsToLower kv.2)))⟩ := by
        unfold validateSchema; rw [hf]
      rw [hvs]
      simpa using (firstInvalidType_eq_none_iff s).mp hf
    | some v =>
      have hvs : validateSchema s = ⟨some v, s⟩ := by
        unfold validateSchema; rw [hf]
      rw [hvs]
      constructor
      · intro hh; simp at hh
      · intro hall
        rw [(firstInvalidType_eq_none_iff s).mpr hall] at hf
        cases hf
  · intro he
    cases hf : firstInvalidType s with
    | none => unfold validateSchema; rw [hf]
    | some v =>
      have hvs : validateSchema s = ⟨some v, s⟩ := by
        unfold validateSchema; rw [hf]
      rw [hvs] at he
      simp at he
  · intro pre kv post hs hpre hkv
    have hf : firstInvalidType s = some kv.2 := by
      rw [hs]; exact firstInvalidType_append pre kv post hpre hkv
    unfold validateSchema
    rw [hf]

/-- Witness for C6 at a concrete input (the repo's own test schema): the
first invalid value `badType` is returned raw with the input unchanged. -/
theorem c6_witness :
    validateSchema [("p1", "text"), ("p2", "badType")]
      = ⟨some "badType", [("p1", "text"), ("p2", "badType")]⟩ :=
  (c6_validateSchema_contract [("p1", "text"), ("p2", "badType")]).2.2
    [("p1", "text")] ("p2", "badType") [] rfl (by decide) (by decide)

/-- Normalisation fixes each recognised type tag: the six tags are already
lowercase and contain no surrounding whitespace. -/
theorem normFix (v : String) (hv : v ∈ validTypes) :
    jsTrim (jsToLower v) = v ∧ isValidType v = true := by
  simp only [validTypes, List.mem_cons, List.not_mem_nil, or_false] at hv
  rcases hv with rfl | rfl | rfl | rfl | rfl | rfl <;> exact ⟨by decide, by decide⟩

/-- Claim C9: schema validation is idempotent — on a mapping whose values
are already normalized valid type tags, `validateSchema` returns
`error = null` and an identical mapping. -/
theorem c9_validateSchema_idempotent (s : List (String × String))
    (h : ∀ kv ∈ s, kv.2 ∈ validTypes) :
    validateSchema s = ⟨none, s⟩ := by
  have hval : ∀ kv ∈ s, isValidType kv.2 = true :=
    fun kv hm => (normFix kv.2 (h kv hm)).2
  have hf : firstInvalidType s = none := (firstInvalidType_eq_none_iff s).mpr hval
  have hmap : s.map (fun kv => (kv.1, jsTrim (jsToLower kv.2))) = s := by
    clear hval hf
    induction s with
    | nil => rfl
    | cons a rest ih =>
      have ha : jsTrim (jsToLower a.2) = a.2 := (normFix a.2 (h a (by simp))).1
      simp only [List.map_cons, ha]
      rw [ih (fun kv hm => h kv (by simp [hm]))]
  unfold validateSchema
  rw [hf, hmap]

/-- Witness for C9 at a concrete already-normalized schema. -/
theorem c9_witness :
    validateSchema [("prop1", "text"), ("prop2", "time"), ("prop3", "category")]
      = ⟨none, [("prop1", "text"), ("prop2", "time"), ("prop3", "category")]⟩ :=
  c9_validateSchema_idempotent
    [("prop1", "text"), ("prop2", "time"), ("prop3", "category")] (by decide)

/-- Over a run of lines that are all blank, the `dropBlanks` consumer with
`dropInternalBlank = true` and `dropFinalBlank = false` buffers everything
and, at end of stream, emits all buffered blanks except the last one
(`blankBuffer.slice(0, length - 1)`). -/
theorem dropBlanksRun_all_blank (L : List Line) (buf : List Line)
    (h : ∀ l ∈ L, l.text = "") :
    dropBlanksRun true false buf L = (buf ++ L).dropLast := by
  induction L generalizing buf with
  | nil => simp [dropBlanksRun]
  | cons x rest ih =>
    have hx : x.text = "" := h x (by simp)
    simp only [dropBlanksRun]
    rw [if_pos hx]
    rw [ih (buf ++ [x]) (fun l hm => h l (by simp [hm]))]
    simp

/-- Claim C7, corrected: when every line in the `[start, end)` window is
blank and `dropInternalBlank = true`, `dropFinalBlank = false`, the line
tokenizer emits all of those blank lines EXCEPT THE LAST ONE — the
end-of-stream flush always discards the final buffered blank, whether or
not it is the synthetic empty line that a trailing terminator produces
(the two coincide only when the window extends to the end of a
terminator-ended stream). -/
theorem c7_all_blank_window_drops_last (content : String) (start : Nat)
    (stop : Option Nat)
    (h : ∀ l ∈ windowLines content start stop, l.text = "") :
    lineStream content start stop true false
      = (windowLines content start stop).dropLast := by
  unfold lineStream
  simpa using dropBlanksRun_all_blank (windowLines content start stop) [] h

/-- Counterexample for C7 as stated: in the stream `"a\n\n\nb\n"` with
window `[1, 3)` every window line is blank and neither of them is the
synthetic final empty line (that is line 4, outside the window), so the
claim predicts both are emitted; the code emits only the first. -/
theorem c7_counterexample :
    windowLines "a\n\n\nb\n" 1 (some 3) = [⟨"", 1⟩, ⟨"", 2⟩]
    ∧ indexedLines "a\n\n\nb\n"
        = [⟨"a", 0⟩, ⟨"", 1⟩, ⟨"", 2⟩, ⟨"b", 3⟩, ⟨"", 4⟩]
    ∧ lineStream "a\n\n\nb\n" 1 (some 3) true false ≠ [⟨"", 1⟩, ⟨"", 2⟩]
    ∧ lineStream "a\n\n\nb\n" 1 (some 3) true false = [⟨"", 1⟩] := by
  decide

/-- Witness for the corrected C7 at the same concrete window. -/
theorem c7_witness :
    lineStream "a\n\n\nb\n" 1 (some 3) true false
      = (windowLines "a\n\n\nb\n" 1 (some 3)).dropLast :=
  c7_all_blank_window_drops_last "a\n\n\nb\n" 1 (some 3) (by decide)

/-- Claim C8: for every input stream and every combination of options, the
`recordIndex` values of the records emitted by `fieldStream` are the
contiguous ascending sequence `0, 1, 2, ...`, independent of the gaps that
dropped blank lines leave in `lineIndex`. -/
theorem c8_recordIndex_contiguous (content : String) (start : Nat)
    (stop : Option Nat) (dib dfb : Bool) (d : Delim) :
    (fieldStream content start stop dib dfb d).map (fun r => r.recordIndex)
      = List.range (fieldStream content start stop dib dfb d).length := by
  unfold fieldStream
  rw [List.map_map, List.length_map]
  rw [show ((fun r : FieldRec => r.recordIndex) ∘ fun p : Nat × (Line × List String) =>
      (⟨p.2.1.text, p.2.1.lineIndex, p.2.2, p.1⟩ : FieldRec)) = Prod.fst from rfl]
  rw [List.enum_map_fst, List.enum_length]

theorem dropWhile_self (p : α → Bool) (l : List α) :
    (l.dropWhile p).dropWhile p = l.dropWhile p := by
  induction l with
  | nil => simp
  | cons a t ih =>
    by_cases h : p a
    · simp only [List.dropWhile_cons, h, if_true]
      exact ih
    · simp [List.dropWhile_cons, h]

theorem trimRightChars_cons (c : Char) (t : List Char) :
    trimRightChars (c :: t)
      = match trimRightChars t with
        | [] => if isWS c then [] else [c]
        | r => c :: r := rfl

theorem trimRightChars_idem (l : List Char) :
    trimRightChars (trimRightChars l) = trimRightChars l := by
  induction l with
  | nil => rfl
  | cons c rest ih =>
    cases hr : trimRightChars rest with
    | nil =>
      by_cases hc : isWS c
      · simp [trimRightChars_cons, hr, hc, trimRightChars]
      · simp [trimRightChars_cons, hr, hc, trimRightChars]
    | cons y ys =>
      have hfix : trimRightChars (y :: ys) = y :: ys := by rw [← hr]; exact ih
      have h1 : trimRightChars (c :: rest) = c :: y :: ys := by
        rw [trimRightChars_cons, hr]
      rw [h1, trimRightChars_cons, hfix]

/-- The right-trim of a list headed by `c` is empty or still headed by
`c`. -/
theorem trimRightChars_head (c : Char) (t : List Char) :
    trimRightChars (c :: t) = [] ∨ ∃ u, trimRightChars (c :: t) = c :: u := by
  simp only [trimRightChars]
  cases trimRightChars t with
  | nil =>
    by_cases hc : isWS c
    · left; simp [hc]
    · right; exact ⟨[], by simp [hc]⟩
  | cons y ys => right; exact ⟨y :: ys, rfl⟩

theorem trimChars_idem (cs : List Char) :
    trimChars (trimChars cs) = trimChars cs := by
  unfold trimChars
  cases ha : cs.dropWhile isWS with
  | nil => simp [trimRightChars]
  | cons c t =>
    have hc : isWS c = false := by
      have hdd := dropWhile_self isWS cs
      rw [ha] at hdd
      by_contra hcc
      have hct : isWS c = true := by simpa using hcc
      rw [List.dropWhile_cons, hct] at hdd
      simp only [if_true] at hdd
      have hlen := dropWhile_length_le isWS t
      rw [hdd] at hlen
      simp at hlen
    rcases trimRightChars_head c t with h0 | ⟨u, hu⟩
    · rw [h0]
      rfl
    · have hid := trimRightChars_idem (c :: t)
      rw [hu] at hid
      rw [hu, List.dropWhile_cons, hc]
      simpa using hid

theorem jsTrim_idem (s : String) : jsTrim (jsTrim s) = jsTrim s := by
  simp [jsTrim, trimChars_idem]

theorem jsTrim_all_ws (w : String) (hw : ∀ c ∈ w.data, isWS c = true) :
    jsTrim w = "" := by
  have h1 : w.data.dropWhile isWS = [] := List.dropWhile_eq_nil_iff.mpr hw
  simp [jsTrim, trimChars, h1, trimRightChars]

theorem except_map_mapError_comm (x : Except ε α) (f : α → β) (s : ε → ε) :
    (x.map f).mapError s = (x.mapError s).map f := by
  cases x <;> rfl

/-- Evaluation of `validateDoc` on a one-column document whose validator
reports an error: the loop throws, and the diagnostic carries the
validator's message together with the UNtrimmed raw value. -/
theorem validateDocStrict_single (k ty : String) (li : Nat) (w : String)
    (f : String → VResult) (hty : ty ≠ "")
    (hf : strictValidatorFor ty = some f) (msg : String)
    (herr : (f (jsTrim w)).error = some msg) :
    validateDocStrict [(k, ty)] li [(k, some w)]
      = .error (.valueError msg li k w ty) := by
  have hk : lookupStr [(k, ty)] k = some ty := by simp [lookupStr]
  simp only [validateDocStrict, hk, hf, herr, if_neg hty]

/-- Claim C10: `validateDoc` strips each non-null raw field value of
leading and trailing whitespace before handing it to the per-type
validator — pre-trimming every raw value changes nothing about validation
except the untrimmed raw value echoed in the error diagnostic — so a
value consisting only of whitespace is validated as the empty string,
which in strict mode raises the empty-value error of the field's type. -/
theorem c10_trimmed_before_validation :
    (∀ (schema : List (String × String)) (li : Nat)
        (doc : List (String × Option String)),
      (validateDocStrict schema li
          (doc.map (fun kv => (kv.1, kv.2.map jsTrim)))).mapError scrubRawValue
        = (validateDocStrict schema li doc).mapError scrubRawValue)
    ∧ (∀ w : String, (∀ c ∈ w.data, isWS c = true) →
        jsTrim w = ""
        ∧ ∀ ty ∈ (["text", "category", "float", "integer", "boolean"] : List String),
            validateDocStrict [("col", ty)] 0 [("col", some w)]
              = .error (.valueError (emptyValueMsg ty) 0 "col" w ty)) := by
  constructor
  · intro schema li doc
    induction doc with
    | nil => rfl
    | cons a rest ih =>
      obtain ⟨k, raw⟩ := a
      simp only [List.map_cons]
      cases hk : lookupStr schema k with
      | none =>
        simp only [validateDocStrict, hk]
        exact ih
      | some ty =>
        by_cases hty : ty = ""
        · subst hty
          simp only [validateDocStrict, hk, if_pos rfl]
          exact ih
        · cases hv : strictValidatorFor ty with
          | none => simp only [validateDocStrict, hk, if_neg hty, hv]
          | some f =>
            cases raw with
            | none =>
              simp only [validateDocStrict, hk, if_neg hty, hv, Option.map_none]
              exact ih
            | some rawv =>
              simp only [validateDocStrict, hk, if_neg hty, hv, Option.map_some',
                jsTrim_idem]
              cases he : (f (jsTrim rawv)).error with
              | some msg => rfl
              | none =>
                dsimp only
                rw [except_map_mapError_comm, except_map_mapError_comm, ih]
  · intro w hw
    have ht : jsTrim w = "" := jsTrim_all_ws w hw
    refine ⟨ht, ?_⟩
    intro ty hty
    simp only [List.mem_cons, List.not_mem_nil, or_false] at hty
    rcases hty with rfl | rfl | rfl | rfl | rfl
    · exact validateDocStrict_single "col" "text" 0 w strict.text
        (by decide) rfl (emptyValueMsg "text") (by rw [ht]; rfl)
    · exact validateDocStrict_single "col" "category" 0 w strict.category
        (by decide) rfl (emptyValueMsg "category") (by rw [ht]; rfl)
    · exact validateDocStrict_single "col" "float" 0 w strict.float
        (by decide) rfl (emptyValueMsg "float") (by rw [ht]; rfl)
    · exact validateDocStrict_single "col" "integer" 0 w strict.integer
        (by decide) rfl (emptyValueMsg "integer") (by rw [ht]; rfl)
    · exact validateDocStrict_single "col" "boolean" 0 w strict.boolean
        (by decide) rfl (emptyValueMsg "boolean") (by rw [ht]; rfl)

/-- Witness for C10 at a concrete input: a float column whose value is a
single space raises the empty-float-value error (with the original,
untrimmed space in the diagnostic). -/
theorem c10_witness :
    validateDocStrict [("col", "float")] 0 [("col", some " ")]
      = .error (.valueError (emptyValueMsg "float") 0 "col" " " "float") :=
  ((c10_trimmed_before_validation).2 " " (by decide)).2 "float" (by simp)

end TimeSeriesCop
